import Mathlib

/-!
Verification development for the decision core of the `baybe` Bayesian-optimization
library: the Bernoulli multi-armed-bandit surrogate
(`baybe/surrogates/multi_armed_bandit.py`) and the acquisition-function
construction and deserialization layer (`baybe/acquisition/base.py`).

Tensors are embedded as lists of rationals (rows of a matrix as `List ℚ`),
stateful methods as explicit state-passing functions returning the post-state
together with an `Except` result, and raised exceptions as `Except.error` values.
-/

/-- Exceptions from `baybe.exceptions` raised by the modelled code, plus the
`IndexError` that tensor indexing can raise inside `_posterior`. -/
inductive BaybeError
  | incompatibleSearchSpace
  | modelNotTrained
  | indexError
  deriving DecidableEq

/-- Modelled from the spec: categorical parameter encodings
(`baybe.parameters.enum.CategoricalEncoding`, not under `src/`); only the
one-hot encoding `OHE` is inspected by the bandit surrogate, the other
variants stand for the remaining encodings. -/
inductive CategoricalEncoding
  | OHE
  | INT
  deriving DecidableEq

/-- Modelled from the spec: search-space parameters (`baybe.parameters`, not
under `src/`). The bandit surrogate's structural check only distinguishes a
`CategoricalParameter` carrying an encoding from any other parameter kind. -/
inductive Parameter
  | categorical (encoding : CategoricalEncoding)
  | other
  deriving DecidableEq

/-- Modelled from the spec: a search space exposing its parameter list
(`baybe.searchspace.core.SearchSpace`, not under `src/`). -/
structure SearchSpace where
  parameters : List Parameter
  deriving DecidableEq

/-- Modelled from the spec: the Beta prior configuration object
(`baybe.priors.BetaPrior`, not under `src/`): two shape parameters
`(alpha, beta)`; `to_torch` yields the pair as a length-2 tensor. -/
structure BetaPrior where
  alpha : ℚ
  beta : ℚ
  deriving DecidableEq

/-- Modelled from the spec: the positive sentinel comparator value of binary
targets (`baybe.targets.binary._POSITIVE_VALUE_COMP`, not under `src/`). -/
def POSITIVE_VALUE_COMP : ℚ := 1

/-- Modelled from the spec: the negative sentinel comparator value of binary
targets (`baybe.targets.binary._NEGATIVE_VALUE_COMP`, not under `src/`). -/
def NEGATIVE_VALUE_COMP : ℚ := 0

/-- State of `BernoulliMultiArmedBanditSurrogate`
(`baybe/surrogates/multi_armed_bandit.py`, lines 25-38): the configured Beta
prior and the optional sufficient-statistics tensor `_win_lose_counts` of
shape `(2, N)`, held as the pair (win row, lose row). -/
structure BernoulliMultiArmedBanditSurrogate where
  prior : BetaPrior
  winLoseCounts : Option (List ℤ × List ℤ)
  deriving DecidableEq

abbrev Bandit := BernoulliMultiArmedBanditSurrogate

/-- Construction of a fresh surrogate: `_win_lose_counts` is initialized to
`None` (`field(init=False, default=None)`, line 38). -/
def mkBandit (p : BetaPrior) : Bandit := ⟨p, none⟩

/-- The structural pattern match opening `_fit` (lines 94-104): the search
space must be spanned by exactly one categorical parameter using one-hot
encoding, otherwise `IncompatibleSearchSpaceError` is raised. -/
def banditSpaceOk (space : SearchSpace) : Bool :=
  match space.parameters with
  | [Parameter.categorical CategoricalEncoding.OHE] => true
  | _ => false

/-- Column `j` of `(train_x * (train_y == sentinel)).sum(axis=0)` (lines
113-114): the sum over training rows of the row's `j`-th entry times the
indicator that the row's outcome equals the sentinel. The rows are given
zipped with their outcomes, mirroring the row-wise broadcast of the
`(M, 1)`-shaped outcome tensor against the `(M, N)` input tensor. -/
def armColumnSum (pairs : List (List ℚ × ℚ)) (sentinel : ℚ) (j : ℕ) : ℚ :=
  (pairs.map (fun p => p.1.getD j 0 * (if p.2 = sentinel then 1 else 0))).sum

/-- `.to(torch.int)` (line 115): float-to-int conversion truncates toward
zero. -/
def truncInt (q : ℚ) : ℤ :=
  if q < 0 then ⌈q⌉ else ⌊q⌋

/-- The sufficient-statistics computation of `_fit` (lines 113-115):
`wins = (train_x * (train_y == 1.0)).sum(axis=0)`,
`losses = (train_x * (train_y == 0.0)).sum(axis=0)`,
stacked into a `(2, N)` integer tensor. `n` is the column count of the
`train_x` tensor (the number of bandit arms). -/
def computeWinLoseCounts (n : ℕ) (train_x : List (List ℚ)) (train_y : List ℚ) :
    List ℤ × List ℤ :=
  let pairs := train_x.zip train_y
  ((List.range n).map (fun j => truncInt (armColumnSum pairs POSITIVE_VALUE_COMP j)),
   (List.range n).map (fun j => truncInt (armColumnSum pairs NEGATIVE_VALUE_COMP j)))

/-- `_fit` (lines 87-115) as a state transformer: first the structural
pattern match on the search space, raising `IncompatibleSearchSpaceError`
(and leaving the state untouched) when it fails; only then the assignment
`self._win_lose_counts = ...`, which overwrites any previous statistics. -/
def fit (s : Bandit) (space : SearchSpace) (n : ℕ)
    (train_x : List (List ℚ)) (train_y : List ℚ) :
    Except BaybeError Unit × Bandit :=
  if banditSpaceOk space then
    (Except.ok (), { s with winLoseCounts := some (computeWinLoseCounts n train_x train_y) })
  else
    (Except.error BaybeError.incompatibleSearchSpace, s)

/-- `_posterior_beta_parameters` (lines 52-67): raises `ModelNotTrainedError`
when `_win_lose_counts is None`; otherwise returns
`_win_lose_counts + prior.to_torch().unsqueeze(-1)`, i.e. the win row plus
`alpha` and the lose row plus `beta` (column-wise broadcast of the length-2
prior tensor against the `(2, N)` counts). -/
def posterior_beta_parameters (s : Bandit) : Except BaybeError (List ℚ × List ℚ) :=
  match s.winLoseCounts with
  | none => Except.error BaybeError.modelNotTrained
  | some (w, l) =>
      Except.ok (w.map (fun c : ℤ => (c : ℚ) + s.prior.alpha),
                 l.map (fun c : ℤ => (c : ℚ) + s.prior.beta))

/-- `torch.distributions.Beta(a, b).mode`, which the surrogate calls on the
posterior parameters (line 50). Torch computes it through the Dirichlet mode:
the clamped numerator `max (a-1) 0` divided by `max (a-1) 0 + max (b-1) 0`;
the division `0/0` (reached exactly when `a ≤ 1` and `b ≤ 1`) produces `NaN`,
modelled as `none`, except that when both concentrations are strictly below 1
torch replaces the entry by a one-hot vertex of the simplex (a boundary mode,
some concrete value in `{0, 1}`; the tie-break of `argmax` over `NaN` entries
picks the first coordinate, giving `1`). No theorem below depends on that
vertex branch. -/
def betaMode (a b : ℚ) : Option ℚ :=
  if a < 1 ∧ b < 1 then some 1
  else if max (a - 1) 0 + max (b - 1) 0 = 0 then none
  else some (max (a - 1) 0 / (max (a - 1) 0 + max (b - 1) 0))

/-- `maximum_a_posteriori_per_arm` (lines 41-50): the elementwise mode of
`Beta(*self._posterior_beta_parameters())`, propagating
`ModelNotTrainedError`; `NaN` entries are modelled as `none`. -/
def maximum_a_posteriori_per_arm (s : Bandit) : Except BaybeError (List (Option ℚ)) :=
  match posterior_beta_parameters s with
  | Except.error e => Except.error e
  | Except.ok (a, b) => Except.ok (List.zipWith betaMode a b)

/-- `torch.argmax` along the last dimension: the index of the first maximal
entry of a row (torch returns the first occurrence among equal maxima). -/
def argmaxFrom : List ℚ → ℚ → ℕ → ℕ → ℕ
  | [], _, best_i, _ => best_i
  | v :: rest, best, best_i, i =>
      if best < v then argmaxFrom rest v i (i + 1)
      else argmaxFrom rest best best_i (i + 1)

/-- `candidates.argmax(-1)` for one candidate row (line 83). -/
def argmaxIdx : List ℚ → ℕ
  | [] => 0
  | v :: rest => argmaxFrom rest v 0 1

/-- The tensor indexing `params_T[indices]` of `_posterior` (lines 82-84):
each candidate row selects, via its argmax, a row of the transposed
`(N, 2)` parameter tensor; an index outside `[0, N)` raises `IndexError`. -/
def selectRows (paramsT : List (ℚ × ℚ)) : List (List ℚ) → Except BaybeError (List (ℚ × ℚ))
  | [] => Except.ok []
  | row :: rest =>
      match paramsT.get? (argmaxIdx row), selectRows paramsT rest with
      | some p, Except.ok ps => Except.ok (p :: ps)
      | some _, Except.error e => Except.error e
      | none, _ => Except.error BaybeError.indexError

/-- `_posterior` (lines 76-85): computes the posterior beta parameters
(propagating `ModelNotTrainedError`), transposes them to an `(N, 2)` list of
per-arm `(alpha, beta)` pairs, and indexes that list by each candidate row's
argmax, yielding one Beta-parameter pair per candidate. -/
def posterior (s : Bandit) (candidates : List (List ℚ)) :
    Except BaybeError (List (ℚ × ℚ)) :=
  match posterior_beta_parameters s with
  | Except.error e => Except.error e
  | Except.ok (a, b) => selectRows (a.zip b) candidates

/-- The one-hot encoding of arm `j` among `n` arms: the candidate-row form
produced by the one-hot categorical encoding stage. -/
def oneHot (n j : ℕ) : List ℚ :=
  (List.range n).map (fun k => if k = j then 1 else 0)

/-- Python `str.startswith`, modelled on the underlying character lists
(first argument: the string, second: the candidate leading piece). -/
def charsStart : List Char → List Char → Bool
  | _, [] => true
  | [], _ :: _ => false
  | c :: cs, d :: ds => d == c && charsStart cs ds

/-- `s.startswith(pre)` for Lean strings, via `charsStart`. -/
def strStartsWith (s pre : String) : Bool :=
  charsStart s.data pre.data

/-- `AcquisitionFunction.is_mc` (`baybe/acquisition/base.py`, lines 32-36):
the class is a Monte-Carlo acquisition function iff its abbreviation tag
starts with the letter `q`. -/
def is_mc (abbr : String) : Bool :=
  strStartsWith abbr "q"

/-- Python dictionary lookup on a keyword-argument list: the value stored
under the first matching key, if any. -/
def kwLookup : List (String × ℚ) → String → Option ℚ
  | [], _ => none
  | (k0, v0) :: rest, k => if k0 = k then some v0 else kwLookup rest k

/-- Modelled from the spec: the target acquisition class of the botorch
library, reduced to what `to_botorch` inspects — the accepted parameter
names of its constructor (`signature(acqf_cls).parameters`, which reflects
`acqf_cls.__init__`). -/
structure AcqfClass where
  params : List String

/-- Modelled from the spec: `baybe.utils.basic.filter_attributes` (not under
`src/`) — keeps exactly the configuration fields whose names match the
accepted parameter names of the target callable, silently dropping the
rest. -/
def filter_attributes (fields : List (String × ℚ)) (accepted : List String) :
    List (String × ℚ) :=
  fields.filter (fun f => accepted.contains f.1)

/-- Python `dict.update` with a single key: overwrite the entry in place if
the key is present, otherwise append it. -/
def updateEntry : List (String × ℚ) → String → ℚ → List (String × ℚ)
  | [], k, v => [(k, v)]
  | (k0, v0) :: rest, k, v =>
      if k0 = k then (k, v) :: rest else (k0, v0) :: updateEntry rest k v

/-- `train_y.max().item()` (line 51): the maximum of the observed training
outcomes (the training outcome column is non-empty whenever the surrogate
was fitted). -/
def listMax : List ℚ → ℚ
  | [] => 0
  | y :: ys => ys.foldl max y

/-- The observable effect of `AcquisitionFunction.to_botorch` (lines 38-69):
which of the two construction branches was taken and which keyword
arguments were handed to the botorch constructor. -/
structure BotorchCall where
  mc : Bool
  kwargs : List (String × ℚ)
  deriving DecidableEq

/-- `AcquisitionFunction.to_botorch` (lines 38-69): filters the
configuration fields against the target class's accepted parameter names;
on the analytic branch (`not is_mc`) computes `best_f = train_y.max().item()`
and adds it to the keyword arguments exactly when the target signature
accepts a `best_f` parameter; on the Monte-Carlo branch passes the filtered
fields to the botorch acquisition factory. -/
def to_botorch (abbr : String) (fields : List (String × ℚ)) (cls : AcqfClass)
    (train_y : List ℚ) : BotorchCall :=
  let fields_dict := filter_attributes fields cls.params
  if ¬ is_mc abbr then
    let best_f := listMax train_y
    let fd :=
      if cls.params.contains "best_f" then updateEntry fields_dict "best_f" best_f
      else fields_dict
    { mc := false, kwargs := fd }
  else
    { mc := true, kwargs := fields_dict }

/-- The argument of the structure hook (`base.py`, line 79): a persisted
acquisition-function configuration, either a bare type-tag string or a
dictionary with a `type` entry and further (numeric) hyperparameter
entries. -/
inductive StructureInput
  | str (s : String)
  | dict (tag : String) (fields : List (String × ℚ))
  deriving DecidableEq

/-- `val if isinstance(val, str) else val["type"]` (line 84). -/
def typeEntry : StructureInput → String
  | StructureInput.str s => s
  | StructureInput.dict t _ => t

/-- The `UCB_DEPRECATIONS` remapping table (lines 80-83). -/
def UCB_DEPRECATIONS : List (String × String) :=
  [("VarUCB", "UpperConfidenceBound"), ("qVarUCB", "qUpperConfidenceBound")]

/-- `_add_deprecation_hook` (lines 73-95): the wrapped hook checks the type
tag against the deprecation table before anything else; on a match it emits
one `DeprecationWarning` and replaces the whole value by
`{"type": modern, "beta": 100.0}` before invoking the inner hook; otherwise
the value is passed through unchanged with no warning. The first component
counts the warnings emitted by the wrapper. -/
def added_deprecation_hook {A : Type} (hook : StructureInput → A)
    (val : StructureInput) : ℕ × A :=
  match UCB_DEPRECATIONS.lookup (typeEntry val) with
  | some modern => (1, hook (StructureInput.dict modern [("beta", 100)]))
  | none => (0, hook val)

/-! ### Helper lemmas -/

theorem banditSpaceOk_iff (space : SearchSpace) :
    banditSpaceOk space = true ↔
      space.parameters = [Parameter.categorical CategoricalEncoding.OHE] := by
  obtain ⟨ps⟩ := space
  rcases ps with _ | ⟨p, _ | ⟨q, rest⟩⟩
  · simp [banditSpaceOk]
  · rcases p with e | _
    · rcases e with _ | _ <;> simp [banditSpaceOk]
    · simp [banditSpaceOk]
  · rcases p with e | _
    · rcases e with _ | _ <;> simp [banditSpaceOk]
    · simp [banditSpaceOk]

theorem selectRows_error_is_index (paramsT : List (ℚ × ℚ)) :
    ∀ (cands : List (List ℚ)) (e : BaybeError),
      selectRows paramsT cands = Except.error e → e = BaybeError.indexError := by
  intro cands
  induction cands with
  | nil => intro e h; simp [selectRows] at h
  | cons row rest ih =>
    intro e h
    rw [selectRows] at h
    rcases hget : paramsT.get? (argmaxIdx row) with _ | p <;> rw [hget] at h
    · simp at h
      exact h.symm
    · rcases hrest : selectRows paramsT rest with e2 | ps <;> rw [hrest] at h <;> simp at h
      exact h ▸ ih e2 hrest

/-! ### Claim C6: fit raises IncompatibleSearchSpaceError iff the search
space is not exactly one one-hot-encoded categorical parameter -/

/-- C6: `fit` raises `IncompatibleSearchSpaceError` if and only if the
supplied search space is not spanned by exactly one categorical parameter
with one-hot encoding; in particular a search space with two categorical
parameters raises the error. -/
theorem C6_fit_incompatible_space (s : Bandit) (n : ℕ)
    (x : List (List ℚ)) (y : List ℚ) :
    (∀ space : SearchSpace,
      (fit s space n x y).1 = Except.error BaybeError.incompatibleSearchSpace ↔
        space.parameters ≠ [Parameter.categorical CategoricalEncoding.OHE]) ∧
    (∀ e1 e2 : CategoricalEncoding,
      (fit s ⟨[Parameter.categorical e1, Parameter.categorical e2]⟩ n x y).1 =
        Except.error BaybeError.incompatibleSearchSpace) := by
  constructor
  · intro space
    by_cases hb : banditSpaceOk space = true
    · have hps := (banditSpaceOk_iff space).mp hb
      simp [fit, hb, hps]
    · have hps := fun h => hb ((banditSpaceOk_iff space).mpr h)
      rw [Bool.not_eq_true] at hb
      simp only [fit, hb, Bool.false_eq_true, if_false]
      exact ⟨fun _ => hps, fun _ => trivial⟩
  · intro e1 e2
    simp [fit, banditSpaceOk]

/-! ### Claim C10: fit is atomic on error -/

/-- C10: whenever `fit` raises (the structural search-space check fails),
the surrogate's sufficient statistics are left exactly as they were before
the call, because validation happens before the mutating assignment. -/
theorem C10_fit_atomic (s : Bandit) (space : SearchSpace) (n : ℕ)
    (x : List (List ℚ)) (y : List ℚ) (e : BaybeError)
    (h : (fit s space n x y).1 = Except.error e) :
    (fit s space n x y).2 = s := by
  by_cases hb : banditSpaceOk space = true
  · simp [fit, hb] at h
  · rw [Bool.not_eq_true] at hb
    simp [fit, hb]

/-- Witness for C10 at a concrete input: an empty search space makes `fit`
raise, and the previously stored statistics survive unchanged. -/
theorem C10_witness :
    (fit ⟨⟨1, 1⟩, some ([3], [4])⟩ ⟨[]⟩ 1 [[1]] [1]).1 =
      Except.error BaybeError.incompatibleSearchSpace ∧
    (fit ⟨⟨1, 1⟩, some ([3], [4])⟩ ⟨[]⟩ 1 [[1]] [1]).2 = ⟨⟨1, 1⟩, some ([3], [4])⟩ :=
  ⟨rfl, C10_fit_atomic ⟨⟨1, 1⟩, some ([3], [4])⟩ ⟨[]⟩ 1 [[1]] [1]
    BaybeError.incompatibleSearchSpace rfl⟩

/-! ### Claim C4: re-fitting overwrites rather than accumulates -/

/-- C4: fitting on data A and then on data B leaves the sufficient
statistics identical to fitting on B alone on a freshly constructed
surrogate with the same prior: the assignment in `_fit` overwrites state. -/
theorem C4_refit_overwrites (p : BetaPrior) (spaceA spaceB : SearchSpace)
    (nA nB : ℕ) (xA xB : List (List ℚ)) (yA yB : List ℚ)
    (hA : banditSpaceOk spaceA = true) (hB : banditSpaceOk spaceB = true) :
    ((fit ((fit (mkBandit p) spaceA nA xA yA).2) spaceB nB xB yB).2).winLoseCounts =
      ((fit (mkBandit p) spaceB nB xB yB).2).winLoseCounts := by
  simp [fit, hA, hB]

/-- Witness for C4 at a concrete input: one arm, first fit sees one win,
second fit sees one win and one loss; the result is what the second data
set alone yields. -/
theorem C4_witness :
    banditSpaceOk ⟨[Parameter.categorical CategoricalEncoding.OHE]⟩ = true ∧
    ((fit ((fit (mkBandit ⟨1, 1⟩) ⟨[Parameter.categorical CategoricalEncoding.OHE]⟩
        1 [[1]] [1]).2) ⟨[Parameter.categorical CategoricalEncoding.OHE]⟩
        1 [[1], [1]] [1, 0]).2).winLoseCounts =
      ((fit (mkBandit ⟨1, 1⟩) ⟨[Parameter.categorical CategoricalEncoding.OHE]⟩
        1 [[1], [1]] [1, 0]).2).winLoseCounts :=
  ⟨rfl, C4_refit_overwrites ⟨1, 1⟩ ⟨[Parameter.categorical CategoricalEncoding.OHE]⟩
    ⟨[Parameter.categorical CategoricalEncoding.OHE]⟩ 1 1 [[1]] [[1], [1]]
    [1] [1, 0] rfl rfl⟩

/-! ### Claim C5: ModelNotTrainedError exactly when untrained -/

/-- C5: on a freshly constructed surrogate (no successful `fit`), both the
posterior query and `maximum_a_posteriori_per_arm` raise
`ModelNotTrainedError`; and in general these operations raise
`ModelNotTrainedError` exactly when the sufficient statistics are absent. -/
theorem C5_untrained_raises (p : BetaPrior) (cands : List (List ℚ)) (s : Bandit) :
    posterior (mkBandit p) cands = Except.error BaybeError.modelNotTrained ∧
    maximum_a_posteriori_per_arm (mkBandit p) = Except.error BaybeError.modelNotTrained ∧
    (posterior s cands = Except.error BaybeError.modelNotTrained ↔
      s.winLoseCounts = none) ∧
    (maximum_a_posteriori_per_arm s = Except.error BaybeError.modelNotTrained ↔
      s.winLoseCounts = none) := by
  refine ⟨rfl, rfl, ?_, ?_⟩
  · obtain ⟨pr, _ | ⟨w, l⟩⟩ := s
    · simp [posterior, posterior_beta_parameters]
    · simp only [posterior, posterior_beta_parameters]
      constructor
      · intro h
        have := selectRows_error_is_index _ _ _ h
        exact absurd this (by decide)
      · intro h
        exact absurd h (by simp)
  · obtain ⟨pr, _ | ⟨w, l⟩⟩ := s
    · simp [maximum_a_posteriori_per_arm, posterior_beta_parameters]
    · simp [maximum_a_posteriori_per_arm, posterior_beta_parameters]

/-- Witness for C5 at a concrete input: a fresh surrogate errors on both
operations, and a trained surrogate's statistics being present means the
posterior query does not raise `ModelNotTrainedError`. -/
theorem C5_witness :
    posterior (mkBandit ⟨1, 1⟩) [[1]] = Except.error BaybeError.modelNotTrained ∧
    maximum_a_posteriori_per_arm (mkBandit ⟨1, 1⟩) =
      Except.error BaybeError.modelNotTrained :=
  ⟨(C5_untrained_raises ⟨1, 1⟩ [[1]] (mkBandit ⟨1, 1⟩)).1,
   (C5_untrained_raises ⟨1, 1⟩ [[1]] (mkBandit ⟨1, 1⟩)).2.1⟩

/-! ### Claim C2: posterior beta parameters and their positivity -/

/-- C2: for a trained surrogate the derived posterior beta parameters equal
the stored win/lose counts plus the prior pseudo-counts broadcast per arm,
and for a valid prior (strictly positive shapes) and non-negative counts
every resulting shape parameter is strictly positive. -/
theorem C2_posterior_beta_parameters (s : Bandit) (w l : List ℤ)
    (hs : s.winLoseCounts = some (w, l))
    (ha : 0 < s.prior.alpha) (hb : 0 < s.prior.beta)
    (hw : ∀ c ∈ w, 0 ≤ c) (hl : ∀ c ∈ l, 0 ≤ c) :
    posterior_beta_parameters s =
      Except.ok (w.map (fun c : ℤ => (c : ℚ) + s.prior.alpha),
                 l.map (fun c : ℤ => (c : ℚ) + s.prior.beta)) ∧
    (∀ q ∈ w.map (fun c : ℤ => (c : ℚ) + s.prior.alpha), 0 < q) ∧
    (∀ q ∈ l.map (fun c : ℤ => (c : ℚ) + s.prior.beta), 0 < q) := by
  refine ⟨?_, ?_, ?_⟩
  · obtain ⟨pr, counts⟩ := s
    replace hs : counts = some (w, l) := hs
    subst hs
    rfl
  · intro q hq
    simp only [List.mem_map] at hq
    obtain ⟨c, hc, rfl⟩ := hq
    have h0 : (0 : ℚ) ≤ (c : ℚ) := by exact_mod_cast hw c hc
    linarith
  · intro q hq
    simp only [List.mem_map] at hq
    obtain ⟨c, hc, rfl⟩ := hq
    have h0 : (0 : ℚ) ≤ (c : ℚ) := by exact_mod_cast hl c hc
    linarith

/-- Witness for C2 at a concrete input: two arms with counts
wins = [2, 0], losses = [1, 3] under the uniform prior. -/
theorem C2_witness :
    posterior_beta_parameters ⟨⟨1, 1⟩, some ([2, 0], [1, 3])⟩ =
      Except.ok (([2, 0] : List ℤ).map (fun c : ℤ => (c : ℚ) + 1),
                 ([1, 3] : List ℤ).map (fun c : ℤ => (c : ℚ) + 1)) ∧
    (∀ q ∈ ([2, 0] : List ℤ).map (fun c : ℤ => (c : ℚ) + 1), 0 < q) ∧
    (∀ q ∈ ([1, 3] : List ℤ).map (fun c : ℤ => (c : ℚ) + 1), 0 < q) :=
  C2_posterior_beta_parameters ⟨⟨1, 1⟩, some ([2, 0], [1, 3])⟩ [2, 0] [1, 3]
    rfl (by norm_num) (by norm_num) (by decide) (by decide)

/-! ### Claim C9: deprecated acquisition tags are rewritten on load -/

/-- C9: structuring a persisted configuration tagged `VarUCB` or `qVarUCB`
(bare string or dictionary form) emits exactly one deprecation warning and
hands the inner hook exactly the modern replacement dictionary with
`beta = 100.0` — so the result equals structuring the modern tag with that
substitute hyperparameter directly, and the remapping happens before the
inner hook (and hence any further validation) ever sees the value; any
other tag passes through unchanged with no warning. -/
theorem C9_deprecation_hook (A : Type) (hook : StructureInput → A)
    (fields : List (String × ℚ)) :
    (added_deprecation_hook hook (StructureInput.dict "VarUCB" fields) =
      (1, hook (StructureInput.dict "UpperConfidenceBound" [("beta", 100)]))) ∧
    (added_deprecation_hook hook (StructureInput.str "VarUCB") =
      (1, hook (StructureInput.dict "UpperConfidenceBound" [("beta", 100)]))) ∧
    (added_deprecation_hook hook (StructureInput.dict "qVarUCB" fields) =
      (1, hook (StructureInput.dict "qUpperConfidenceBound" [("beta", 100)]))) ∧
    (added_deprecation_hook hook (StructureInput.str "qVarUCB") =
      (1, hook (StructureInput.dict "qUpperConfidenceBound" [("beta", 100)]))) ∧
    (∀ val : StructureInput,
      typeEntry val ≠ "VarUCB" → typeEntry val ≠ "qVarUCB" →
      added_deprecation_hook hook val = (0, hook val)) := by
  refine ⟨rfl, rfl, rfl, rfl, ?_⟩
  intro val h1 h2
  have e1 : (typeEntry val == "VarUCB") = false :=
    beq_eq_false_iff_ne.mpr h1
  have e2 : (typeEntry val == "qVarUCB") = false :=
    beq_eq_false_iff_ne.mpr h2
  simp [added_deprecation_hook, UCB_DEPRECATIONS, List.lookup, e1, e2]

/-- Witness for C9 at a concrete input: the tag `ExpectedImprovement` is not
deprecated and passes through with no warning. -/
theorem C9_witness :
    added_deprecation_hook typeEntry (StructureInput.str "ExpectedImprovement") =
      (0, "ExpectedImprovement") :=
  (C9_deprecation_hook String typeEntry []).2.2.2.2
    (StructureInput.str "ExpectedImprovement") (by decide) (by decide)


/-! ### Claim C8: to_botorch branch dispatch, best_f, and silent filtering -/

theorem is_mc_def (abbr : String) : is_mc abbr = strStartsWith abbr "q" := rfl

theorem kwLookup_updateEntry (d : List (String × ℚ)) (k : String) (v : ℚ) :
    kwLookup (updateEntry d k v) k = some v := by
  induction d with
  | nil => simp [updateEntry, kwLookup]
  | cons e rest ih =>
    obtain ⟨k0, v0⟩ := e
    by_cases h : k0 = k
    · simp [updateEntry, h, kwLookup]
    · simp [updateEntry, h, kwLookup, ih]

theorem kwLookup_filter_attributes (fields : List (String × ℚ))
    (accepted : List String) (k : String) (hk : accepted.contains k = false) :
    kwLookup (filter_attributes fields accepted) k = none := by
  have hkm : k ∉ accepted := by simpa using hk
  induction fields with
  | nil => rfl
  | cons e rest ih =>
    obtain ⟨k0, v0⟩ := e
    by_cases h : accepted.contains k0 = true
    · have hne : k0 ≠ k := by
        intro hkk
        rw [hkk] at h
        exact hkm (by simpa using h)
      simp only [filter_attributes] at ih ⊢
      rw [List.filter_cons_of_pos (by simpa using h)]
      simpa [kwLookup, hne] using ih
    · rw [Bool.not_eq_true] at h
      simp only [filter_attributes] at ih ⊢
      rw [List.filter_cons_of_neg (by simpa using h)]
      exact ih

theorem foldl_max_spec (l : List ℚ) (a : ℚ) :
    (l.foldl max a = a ∨ l.foldl max a ∈ l) ∧
    a ≤ l.foldl max a ∧ ∀ z ∈ l, z ≤ l.foldl max a := by
  induction l generalizing a with
  | nil => exact ⟨Or.inl rfl, le_refl a, by simp⟩
  | cons b t ih =>
    obtain ⟨hmem, hinit, hall⟩ := ih (max a b)
    simp only [List.foldl_cons]
    refine ⟨?_, ?_, ?_⟩
    · rcases hmem with h | h
      · rcases max_cases a b with ⟨he, _⟩ | ⟨he, _⟩
        · exact Or.inl (h.trans he)
        · exact Or.inr (by rw [h, he]; exact List.mem_cons_self b t)
      · exact Or.inr (List.mem_cons_of_mem b h)
    · exact le_trans (le_max_left a b) hinit
    · intro z hz
      rcases List.mem_cons.mp hz with rfl | hz
      · exact le_trans (le_max_right a z) hinit
      · exact hall z hz

/-- C8: `to_botorch` takes the Monte-Carlo branch exactly when the
abbreviation tag starts with `q`; on the analytic branch the maximum
observed training outcome is passed as `best_f` exactly when the target
signature accepts a `best_f` parameter; and on both branches configuration
fields not matching the accepted parameter names are dropped silently, so
adding an unrecognized field changes nothing (and in particular does not
fail). -/
theorem C8_to_botorch (abbr : String) (fields : List (String × ℚ))
    (cls : AcqfClass) (ys : List ℚ) :
    ((to_botorch abbr fields cls ys).mc = strStartsWith abbr "q") ∧
    (strStartsWith abbr "q" = false → cls.params.contains "best_f" = true →
      kwLookup (to_botorch abbr fields cls ys).kwargs "best_f" = some (listMax ys)) ∧
    (cls.params.contains "best_f" = false →
      kwLookup (to_botorch abbr fields cls ys).kwargs "best_f" = none) ∧
    (ys ≠ [] → listMax ys ∈ ys ∧ ∀ z ∈ ys, z ≤ listMax ys) ∧
    (∀ k v, cls.params.contains k = false →
      to_botorch abbr (fields ++ [(k, v)]) cls ys = to_botorch abbr fields cls ys) := by
  refine ⟨?_, ?_, ?_, ?_, ?_⟩
  · by_cases hq : is_mc abbr = true
    · have hs : strStartsWith abbr "q" = true := by rw [← is_mc_def]; exact hq
      simp [to_botorch, hq, hs]
    · rw [Bool.not_eq_true] at hq
      have hs : strStartsWith abbr "q" = false := by rw [← is_mc_def]; exact hq
      simp [to_botorch, hq, hs]
  · intro hq hbf
    have hq2 : is_mc abbr = false := by rw [is_mc_def]; exact hq
    have hbf2 : "best_f" ∈ cls.params := by simpa using hbf
    simp [to_botorch, hq2, hbf, hbf2, kwLookup_updateEntry]
  · intro hbf
    have hbf2 : "best_f" ∉ cls.params := by simpa using hbf
    have hnone := kwLookup_filter_attributes fields cls.params "best_f" hbf
    by_cases hq : is_mc abbr = true
    · simp [to_botorch, hq, hnone]
    · rw [Bool.not_eq_true] at hq
      simp [to_botorch, hq, hbf, hbf2, hnone]
  · intro hys
    match ys, hys with
    | y :: t, _ =>
      have h := foldl_max_spec t y
      refine ⟨?_, ?_⟩
      · rcases h.1 with he | he
        · rw [listMax, he]; exact List.mem_cons_self y t
        · rw [listMax]; exact List.mem_cons_of_mem y he
      · intro z hz
        rcases List.mem_cons.mp hz with rfl | hz
        · rw [listMax]; exact h.2.1
        · rw [listMax]; exact h.2.2 z hz
  · intro k v hk
    have hk2 : k ∉ cls.params := by simpa using hk
    have hfilt : filter_attributes (fields ++ [(k, v)]) cls.params =
        filter_attributes fields cls.params := by
      simp [filter_attributes, List.filter_append, List.filter_cons, hk, hk2]
    simp only [to_botorch, hfilt]

/-- Witness for C8 at a concrete input: an analytic acquisition function
whose target accepts `best_f` receives the maximum observed outcome, and an
extra unrecognized field is dropped without failing. -/
theorem C8_witness :
    kwLookup (to_botorch "ExpectedImprovement" [("beta", 5), ("bogus", 7)]
        ⟨["model", "best_f", "beta"]⟩ [1, 3, 2]).kwargs "best_f" =
      some (listMax [1, 3, 2]) ∧
    to_botorch "ExpectedImprovement" ([("beta", 5)] ++ [("bogus", 7)])
        ⟨["model", "best_f", "beta"]⟩ [1, 3, 2] =
      to_botorch "ExpectedImprovement" [("beta", 5)]
        ⟨["model", "best_f", "beta"]⟩ [1, 3, 2] :=
  ⟨(C8_to_botorch "ExpectedImprovement" [("beta", 5), ("bogus", 7)]
      ⟨["model", "best_f", "beta"]⟩ [1, 3, 2]).2.1 (by decide) (by decide),
   (C8_to_botorch "ExpectedImprovement" [("beta", 5)]
      ⟨["model", "best_f", "beta"]⟩ [1, 3, 2]).2.2.2.2 "bogus" 7 (by decide)⟩

/-! ### Claim C3: maximum a posteriori per arm -/

theorem betaMode_of_one_le (a b : ℚ) (ha : 1 ≤ a) (hb : 1 ≤ b) :
    betaMode a b =
      if 1 < a ∨ 1 < b then some ((a - 1) / (a + b - 2)) else none := by
  have h1 : ¬(a < 1 ∧ b < 1) := fun h => absurd ha (not_le.mpr h.1)
  have hma : max (a - 1) 0 = a - 1 := max_eq_left (by linarith)
  have hmb : max (b - 1) 0 = b - 1 := max_eq_left (by linarith)
  unfold betaMode
  rw [if_neg h1, hma, hmb]
  by_cases h2 : 1 < a ∨ 1 < b
  · have hte : a - 1 + (b - 1) = a + b - 2 := by ring
    have hne : a - 1 + (b - 1) ≠ 0 := by
      rcases h2 with h | h
      · exact ne_of_gt (by linarith)
      · exact ne_of_gt (by linarith)
    rw [if_neg hne, if_pos h2, hte]
  · push_neg at h2
    have ha1 : a = 1 := le_antisymm h2.1 ha
    have hb1 : b = 1 := le_antisymm h2.2 hb
    subst ha1
    subst hb1
    norm_num

theorem getD_zipWith_betaMode (a : List ℚ) (b : List ℚ) (i : ℕ)
    (hia : i < a.length) (hib : i < b.length) :
    (List.zipWith betaMode a b).getD i none =
      betaMode (a.getD i 0) (b.getD i 0) := by
  induction a generalizing b i with
  | nil => simp at hia
  | cons x xs ih =>
    cases b with
    | nil => simp at hib
    | cons y ys =>
      cases i with
      | zero => rfl
      | succ m =>
        simp only [List.zipWith_cons_cons, List.getD_cons_succ]
        exact ih ys m (by simpa using hia) (by simpa using hib)

/-- C3 (amended): whenever all posterior shape parameters are at least 1 (as
holds under the default uniform prior), `maximum_a_posteriori_per_arm`
returns, per arm, the value `(α−1)/(α+β−2)` whenever at least one of the two
shape parameters exceeds 1 — including the boundary cases `α = 1 < β`
(value 0) and `β = 1 < α` (value 1), where the claim expected `NaN` — and
`NaN` exactly for arms with `α = β = 1`. -/
theorem C3_map_per_arm (s : Bandit) (a b : List ℚ)
    (hp : posterior_beta_parameters s = Except.ok (a, b))
    (hab : ∀ i, i < a.length → i < b.length →
      1 ≤ a.getD i 0 ∧ 1 ≤ b.getD i 0) :
    maximum_a_posteriori_per_arm s = Except.ok (List.zipWith betaMode a b) ∧
    ∀ i, i < a.length → i < b.length →
      (List.zipWith betaMode a b).getD i none =
        (if 1 < a.getD i 0 ∨ 1 < b.getD i 0 then
          some ((a.getD i 0 - 1) / (a.getD i 0 + b.getD i 0 - 2))
        else none) := by
  constructor
  · simp only [maximum_a_posteriori_per_arm, hp]
  · intro i hia hib
    obtain ⟨h1a, h1b⟩ := hab i hia hib
    rw [getD_zipWith_betaMode a b i hia hib, betaMode_of_one_le _ _ h1a h1b]

/-- C3 counterexample: an arm with zero wins and one loss under the uniform
prior has posterior shape parameters `α = 1 ≤ 1` and `β = 2`, yet
`maximum_a_posteriori_per_arm` returns the defined value `0` (the boundary
mode) instead of reporting not-a-number. -/
theorem C3_counterexample :
    posterior_beta_parameters ⟨⟨1, 1⟩, some ([0], [1])⟩ =
      Except.ok ([1], [2]) ∧
    ((1 : ℚ) ≤ 1) ∧
    maximum_a_posteriori_per_arm ⟨⟨1, 1⟩, some ([0], [1])⟩ =
      Except.ok [some 0] := by
  have h1 : posterior_beta_parameters ⟨⟨1, 1⟩, some ([0], [1])⟩ =
      Except.ok ([1], [2]) := by
    norm_num [posterior_beta_parameters]
  refine ⟨h1, le_refl 1, ?_⟩
  simp only [maximum_a_posteriori_per_arm, h1]
  norm_num [betaMode]

/-- Witness for C3 at a concrete input: the spec's own example, two arms
with wins `[5, 0]` and losses `[2, 0]` under the uniform prior; arm 0 has
mode `5/7`, arm 1 (no observations, `α = β = 1`) reports `NaN`. -/
theorem C3_witness :
    maximum_a_posteriori_per_arm ⟨⟨1, 1⟩, some ([5, 0], [2, 0])⟩ =
      Except.ok (List.zipWith betaMode [6, 1] [3, 1]) ∧
    ∀ i, i < ([6, 1] : List ℚ).length → i < ([3, 1] : List ℚ).length →
      (List.zipWith betaMode [6, 1] [3, 1]).getD i none =
        (if 1 < ([6, 1] : List ℚ).getD i 0 ∨ 1 < ([3, 1] : List ℚ).getD i 0 then
          some ((([6, 1] : List ℚ).getD i 0 - 1) /
            (([6, 1] : List ℚ).getD i 0 + ([3, 1] : List ℚ).getD i 0 - 2))
        else none) :=
  C3_map_per_arm ⟨⟨1, 1⟩, some ([5, 0], [2, 0])⟩ [6, 1] [3, 1]
    (by norm_num [posterior_beta_parameters])
    (by
      intro i h1 h2
      simp only [List.length_cons, List.length_nil] at h1
      interval_cases i <;> norm_num)

/-! ### Claim C7: posterior queries with mismatched candidate width -/

theorem argmaxFrom_lt (rest : List ℚ) (best : ℚ) (bi i : ℕ) (hbi : bi < i) :
    argmaxFrom rest best bi i < i + rest.length := by
  induction rest generalizing best bi i with
  | nil => simpa [argmaxFrom] using hbi
  | cons v t ih =>
    rw [argmaxFrom]
    by_cases h : best < v
    · rw [if_pos h]
      have := ih v i (i + 1) (Nat.lt_succ_self i)
      simp only [List.length_cons]
      omega
    · rw [if_neg h]
      have := ih best bi (i + 1) (Nat.lt_succ_of_lt hbi)
      simp only [List.length_cons]
      omega

theorem argmaxIdx_lt (row : List ℚ) (h : row ≠ []) :
    argmaxIdx row < row.length := by
  match row, h with
  | v :: rest, _ =>
    have := argmaxFrom_lt rest v 0 1 Nat.zero_lt_one
    rw [argmaxIdx]
    simp only [List.length_cons]
    omega

theorem selectRows_ok_iff (paramsT : List (ℚ × ℚ)) (cands : List (List ℚ)) :
    (∃ r, selectRows paramsT cands = Except.ok r) ↔
      ∀ row ∈ cands, argmaxIdx row < paramsT.length := by
  induction cands with
  | nil => simp [selectRows]
  | cons row rest ih =>
    constructor
    · rintro ⟨r, hr⟩
      rw [selectRows] at hr
      rcases hget : paramsT.get? (argmaxIdx row) with _ | p <;> rw [hget] at hr
      · simp at hr
      · rcases hrest : selectRows paramsT rest with e | ps <;> rw [hrest] at hr <;>
          simp at hr
        have hlt : argmaxIdx row < paramsT.length := by
          by_contra hc
          push_neg at hc
          rw [List.get?_eq_none.mpr hc] at hget
          simp at hget
        intro z hz
        rcases List.mem_cons.mp hz with rfl | hz
        · exact hlt
        · exact (ih.mp ⟨ps, hrest⟩) z hz
    · intro hall
      rcases hps : paramsT.get? (argmaxIdx row) with _ | p
      · rw [List.get?_eq_none] at hps
        have := hall row (List.mem_cons_self row rest)
        omega
      · obtain ⟨ps, hrest⟩ := ih.mpr (fun z hz => hall z (List.mem_cons_of_mem row hz))
        exact ⟨p :: ps, by rw [selectRows, hps, hrest]⟩

/-- C7 (amended): for a trained surrogate, the posterior query succeeds
exactly when every candidate row's argmax index is below the number of
trained arms — there is no width check. A batch whose non-empty rows are
all narrower than (or as wide as) the arm count is silently accepted, each
row's argmax acting as the arm selector; an index error is raised only when
some row's argmax lands beyond the last arm. -/
theorem C7_posterior_no_width_check (s : Bandit) (w l : List ℤ)
    (cands : List (List ℚ)) (hs : s.winLoseCounts = some (w, l)) :
    ((∃ r, posterior s cands = Except.ok r) ↔
      ∀ row ∈ cands, argmaxIdx row < min w.length l.length) ∧
    ((∀ row ∈ cands, row ≠ [] ∧ row.length ≤ min w.length l.length) →
      ∃ r, posterior s cands = Except.ok r) := by
  obtain ⟨pr, counts⟩ := s
  replace hs : counts = some (w, l) := hs
  subst hs
  have hpost : posterior ⟨pr, some (w, l)⟩ cands =
      selectRows ((w.map (fun c : ℤ => (c : ℚ) + pr.alpha)).zip
        (l.map (fun c : ℤ => (c : ℚ) + pr.beta))) cands := rfl
  have hlen : ((w.map (fun c : ℤ => (c : ℚ) + pr.alpha)).zip
      (l.map (fun c : ℤ => (c : ℚ) + pr.beta))).length = min w.length l.length := by
    simp [List.length_zip]
  constructor
  · rw [hpost, selectRows_ok_iff, hlen]
  · intro hall
    rw [hpost, selectRows_ok_iff, hlen]
    intro row hrow
    obtain ⟨hne, hle⟩ := hall row hrow
    exact lt_of_lt_of_le (argmaxIdx_lt row hne) hle

/-- C7 counterexample: a surrogate trained with 2 arms accepts a candidate
batch of width 1 (≠ 2) and returns a posterior normally — the parameters of
arm 0 — instead of failing loudly. -/
theorem C7_counterexample :
    posterior_beta_parameters ⟨⟨1, 1⟩, some ([1, 2], [3, 4])⟩ =
      Except.ok ([2, 3], [4, 5]) ∧
    ([(1 : ℚ)] : List ℚ).length ≠ 2 ∧
    posterior ⟨⟨1, 1⟩, some ([1, 2], [3, 4])⟩ [[1]] = Except.ok [(2, 4)] := by
  have h1 : posterior_beta_parameters ⟨⟨1, 1⟩, some ([1, 2], [3, 4])⟩ =
      Except.ok ([2, 3], [4, 5]) := by
    norm_num [posterior_beta_parameters]
  refine ⟨h1, by norm_num, ?_⟩
  simp only [posterior, h1]
  norm_num [selectRows, argmaxIdx, argmaxFrom, List.zip]

/-- Witness for C7 at a concrete input: the same trained 2-arm surrogate
and the same width-1 batch, obtained through the amended theorem. -/
theorem C7_witness :
    ∃ r, posterior ⟨⟨1, 1⟩, some ([1, 2], [3, 4])⟩ [[1]] = Except.ok r :=
  (C7_posterior_no_width_check ⟨⟨1, 1⟩, some ([1, 2], [3, 4])⟩ [1, 2] [3, 4]
    [[1]] rfl).2 (by decide)

/-! ### Claim C1: exact sufficient statistics from one-hot training tables -/

theorem oneHot_length (n j : ℕ) : (oneHot n j).length = n := by
  simp [oneHot]

theorem oneHot_getD (n i j : ℕ) (hj : j < n) :
    (oneHot n i).getD j 0 = if j = i then 1 else 0 := by
  have hj2 : j < ((List.range n).map (fun k => if k = i then (1 : ℚ) else 0)).length := by
    simpa using hj
  rw [oneHot, List.getD_eq_getElem _ _ hj2, List.getElem_map, List.getElem_range]

theorem oneHot_inj (n i j : ℕ) (hi : i < n) (hj : j < n)
    (h : oneHot n i = oneHot n j) : i = j := by
  by_contra hne
  have h1 := congrArg (fun t => t.getD i 0) h
  simp only at h1
  rw [oneHot_getD n i i hi, oneHot_getD n j i hi, if_pos rfl,
    if_neg (fun hij => hne hij)] at h1
  exact one_ne_zero h1

theorem truncInt_natCast (k : ℕ) : truncInt (k : ℚ) = (k : ℤ) := by
  rw [truncInt, if_neg (not_lt.mpr (by positivity)), Int.floor_natCast]

theorem armColumnSum_eq_countP (n j : ℕ) (hj : j < n) (c : ℚ) :
    ∀ (pairs : List (List ℚ × ℚ)),
      (∀ p ∈ pairs, ∃ i, i < n ∧ p.1 = oneHot n i) →
      armColumnSum pairs c j =
        (pairs.countP (fun p => decide (p.1 = oneHot n j ∧ p.2 = c)) : ℚ) := by
  intro pairs
  induction pairs with
  | nil => intro _; simp [armColumnSum]
  | cons p rest ih =>
    intro hp
    obtain ⟨i, hi, hp1⟩ := hp p (List.mem_cons_self p rest)
    have ihr := ih (fun q hq => hp q (List.mem_cons_of_mem p hq))
    simp only [armColumnSum, List.map_cons, List.sum_cons] at ihr ⊢
    have hterm : p.1.getD j 0 * (if p.2 = c then (1 : ℚ) else 0) =
        (((if p.1 = oneHot n j ∧ p.2 = c then 1 else 0 : ℕ)) : ℚ) := by
      rw [hp1, oneHot_getD n i j hj]
      by_cases hij : j = i
      · subst hij
        by_cases hc : p.2 = c <;> simp [hc]
      · have hno : ¬(oneHot n i = oneHot n j ∧ p.2 = c) := by
          rintro ⟨he, _⟩
          exact hij (oneHot_inj n i j hi hj he).symm
        simp [hij, hno]
    rw [List.countP_cons, hterm, ihr]
    simp only [decide_eq_true_eq]
    push_cast
    ring

theorem countP_split_pos_neg (n j : ℕ) :
    ∀ (pairs : List (List ℚ × ℚ)),
      (∀ p ∈ pairs, p.2 = POSITIVE_VALUE_COMP ∨ p.2 = NEGATIVE_VALUE_COMP) →
      pairs.countP (fun p => decide (p.1 = oneHot n j ∧ p.2 = POSITIVE_VALUE_COMP)) +
        pairs.countP (fun p => decide (p.1 = oneHot n j ∧ p.2 = NEGATIVE_VALUE_COMP)) =
      pairs.countP (fun p => decide (p.1 = oneHot n j)) := by
  have hpn : POSITIVE_VALUE_COMP ≠ NEGATIVE_VALUE_COMP := by
    norm_num [POSITIVE_VALUE_COMP, NEGATIVE_VALUE_COMP]
  intro pairs
  induction pairs with
  | nil => intro _; rfl
  | cons p rest ih =>
    intro hy
    have ihr := ih (fun q hq => hy q (List.mem_cons_of_mem p hq))
    simp only [List.countP_cons, decide_eq_true_eq]
    rcases hy p (List.mem_cons_self p rest) with h2 | h2
    · by_cases h1 : p.1 = oneHot n j
      · have hno : ¬(p.1 = oneHot n j ∧ p.2 = NEGATIVE_VALUE_COMP) := by
          rintro ⟨_, hneg⟩
          exact hpn (h2.symm.trans hneg)
        rw [if_pos ⟨h1, h2⟩, if_neg hno, if_pos h1]
        omega
      · have hno1 : ¬(p.1 = oneHot n j ∧ p.2 = POSITIVE_VALUE_COMP) := fun h => h1 h.1
        have hno2 : ¬(p.1 = oneHot n j ∧ p.2 = NEGATIVE_VALUE_COMP) := fun h => h1 h.1
        rw [if_neg hno1, if_neg hno2, if_neg h1]
        omega
    · by_cases h1 : p.1 = oneHot n j
      · have hno : ¬(p.1 = oneHot n j ∧ p.2 = POSITIVE_VALUE_COMP) := by
          rintro ⟨_, hpos⟩
          exact hpn (hpos.symm.trans h2)
        rw [if_neg hno, if_pos ⟨h1, h2⟩, if_pos h1]
        omega
      · have hno1 : ¬(p.1 = oneHot n j ∧ p.2 = POSITIVE_VALUE_COMP) := fun h => h1 h.1
        have hno2 : ¬(p.1 = oneHot n j ∧ p.2 = NEGATIVE_VALUE_COMP) := fun h => h1 h.1
        rw [if_neg hno1, if_neg hno2, if_neg h1]
        omega

theorem countsRow_getD (n j : ℕ) (hj : j < n) (pairs : List (List ℚ × ℚ)) (c : ℚ) :
    ((List.range n).map (fun k => truncInt (armColumnSum pairs c k))).getD j 0 =
      truncInt (armColumnSum pairs c j) := by
  have hj2 : j < ((List.range n).map (fun k => truncInt (armColumnSum pairs c k))).length := by
    simpa using hj
  rw [List.getD_eq_getElem _ _ hj2, List.getElem_map, List.getElem_range]

/-- C1: on a valid training table (one-hot candidate rows, outcomes equal to
the positive or negative sentinel), `fit` stores a 2-by-N integer table
whose row 0, entry j counts the training rows selecting arm j with a
positive-sentinel outcome, row 1, entry j counts the negative-sentinel rows
of arm j, all entries are non-negative, and wins plus losses per arm equal
the number of training rows attributed to that arm. -/
theorem C1_fit_statistics (n : ℕ) (train_x : List (List ℚ)) (train_y : List ℚ)
    (hlen : train_x.length = train_y.length)
    (hx : ∀ x ∈ train_x, ∃ j, j < n ∧ x = oneHot n j)
    (hy : ∀ y ∈ train_y, y = POSITIVE_VALUE_COMP ∨ y = NEGATIVE_VALUE_COMP) :
    (∀ (s : Bandit) (space : SearchSpace), banditSpaceOk space = true →
      ((fit s space n train_x train_y).2).winLoseCounts =
        some (computeWinLoseCounts n train_x train_y)) ∧
    (computeWinLoseCounts n train_x train_y).1.length = n ∧
    (computeWinLoseCounts n train_x train_y).2.length = n ∧
    (∀ j, j < n →
      (computeWinLoseCounts n train_x train_y).1.getD j 0 =
        ((train_x.zip train_y).countP
          (fun p => decide (p.1 = oneHot n j ∧ p.2 = POSITIVE_VALUE_COMP)) : ℤ) ∧
      (computeWinLoseCounts n train_x train_y).2.getD j 0 =
        ((train_x.zip train_y).countP
          (fun p => decide (p.1 = oneHot n j ∧ p.2 = NEGATIVE_VALUE_COMP)) : ℤ) ∧
      0 ≤ (computeWinLoseCounts n train_x train_y).1.getD j 0 ∧
      0 ≤ (computeWinLoseCounts n train_x train_y).2.getD j 0 ∧
      (computeWinLoseCounts n train_x train_y).1.getD j 0 +
        (computeWinLoseCounts n train_x train_y).2.getD j 0 =
        ((train_x.zip train_y).countP (fun p => decide (p.1 = oneHot n j)) : ℤ)) := by
  have hpairs : ∀ p ∈ train_x.zip train_y, ∃ i, i < n ∧ p.1 = oneHot n i :=
    fun p hp => hx p.1 (List.of_mem_zip hp).1
  have hpy : ∀ p ∈ train_x.zip train_y,
      p.2 = POSITIVE_VALUE_COMP ∨ p.2 = NEGATIVE_VALUE_COMP :=
    fun p hp => hy p.2 (List.of_mem_zip hp).2
  have hfst : (computeWinLoseCounts n train_x train_y).1 =
      (List.range n).map
        (fun k => truncInt (armColumnSum (train_x.zip train_y) POSITIVE_VALUE_COMP k)) := rfl
  have hsnd : (computeWinLoseCounts n train_x train_y).2 =
      (List.range n).map
        (fun k => truncInt (armColumnSum (train_x.zip train_y) NEGATIVE_VALUE_COMP k)) := rfl
  refine ⟨?_, ?_, ?_, ?_⟩
  · intro s space hsp
    simp [fit, hsp]
  · rw [hfst]; simp
  · rw [hsnd]; simp
  · intro j hj
    have e1 : (computeWinLoseCounts n train_x train_y).1.getD j 0 =
        truncInt (armColumnSum (train_x.zip train_y) POSITIVE_VALUE_COMP j) := by
      rw [hfst]; exact countsRow_getD n j hj _ _
    have e2 : (computeWinLoseCounts n train_x train_y).2.getD j 0 =
        truncInt (armColumnSum (train_x.zip train_y) NEGATIVE_VALUE_COMP j) := by
      rw [hsnd]; exact countsRow_getD n j hj _ _
    have c1 := armColumnSum_eq_countP n j hj POSITIVE_VALUE_COMP
      (train_x.zip train_y) hpairs
    have c2 := armColumnSum_eq_countP n j hj NEGATIVE_VALUE_COMP
      (train_x.zip train_y) hpairs
    rw [e1, e2, c1, c2, truncInt_natCast, truncInt_natCast]
    refine ⟨rfl, rfl, by positivity, by positivity, ?_⟩
    exact_mod_cast countP_split_pos_neg n j (train_x.zip train_y) hpy

/-- Witness for C1 at a concrete input: 2 arms, three one-hot training rows
`[[1,0],[0,1],[1,0]]` with outcomes `[1,0,1]`; the win entry of arm 0 equals
the count of its positive rows and wins plus losses of arm 0 equal the rows
attributed to arm 0. -/
theorem C1_witness :
    (computeWinLoseCounts 2 [[1, 0], [0, 1], [1, 0]] [1, 0, 1]).1.getD 0 0 =
      ((([[1, 0], [0, 1], [1, 0]] : List (List ℚ)).zip ([1, 0, 1] : List ℚ)).countP
        (fun p => decide (p.1 = oneHot 2 0 ∧ p.2 = POSITIVE_VALUE_COMP)) : ℤ) ∧
    (computeWinLoseCounts 2 [[1, 0], [0, 1], [1, 0]] [1, 0, 1]).1.getD 0 0 +
      (computeWinLoseCounts 2 [[1, 0], [0, 1], [1, 0]] [1, 0, 1]).2.getD 0 0 =
      ((([[1, 0], [0, 1], [1, 0]] : List (List ℚ)).zip ([1, 0, 1] : List ℚ)).countP
        (fun p => decide (p.1 = oneHot 2 0)) : ℤ) := by
  have h := C1_fit_statistics 2 [[1, 0], [0, 1], [1, 0]] [1, 0, 1] rfl
    (by
      intro x hxm
      simp only [List.mem_cons, List.not_mem_nil, or_false] at hxm
      rcases hxm with rfl | rfl | rfl
      · exact ⟨0, by omega, by norm_num [oneHot, List.range_succ]⟩
      · exact ⟨1, by omega, by norm_num [oneHot, List.range_succ]⟩
      · exact ⟨0, by omega, by norm_num [oneHot, List.range_succ]⟩)
    (by
      intro y hym
      simp only [List.mem_cons, List.not_mem_nil, or_false] at hym
      rcases hym with rfl | rfl | rfl
      · left; norm_num [POSITIVE_VALUE_COMP]
      · right; norm_num [NEGATIVE_VALUE_COMP]
      · left; norm_num [POSITIVE_VALUE_COMP])
  exact ⟨(h.2.2.2 0 (by omega)).1, (h.2.2.2 0 (by omega)).2.2.2.2⟩

/-- Witness for C6 at a concrete input: a search space with two categorical
parameters makes `fit` raise `IncompatibleSearchSpaceError`. -/
theorem C6_witness :
    (fit (mkBandit ⟨1, 1⟩) ⟨[Parameter.categorical CategoricalEncoding.OHE,
        Parameter.categorical CategoricalEncoding.OHE]⟩ 1 [[1]] [1]).1 =
      Except.error BaybeError.incompatibleSearchSpace :=
  (C6_fit_incompatible_space (mkBandit ⟨1, 1⟩) 1 [[1]] [1]).2
    CategoricalEncoding.OHE CategoricalEncoding.OHE
